import Mathlib

/- Shallow embedding of the dnsserver repository: the DNS message codec
   (src/unnamed/part_001) and the server handlers (src/server.go).

   Modelling conventions:
   - a Go byte is a Nat (intended range below 256); Go []byte and Go string
     values are List Nat (Go strings are byte sequences);
   - a Go uint16 field is a Nat; where Go converts with uint16(...) or
     byte(...) the model takes the value mod 65536 or mod 256;
   - a Go function that can panic at runtime (index or slice out of range)
     is modelled with the DRes.crash outcome; a returned Go error is
     DRes.err with the message of errors.New; a normal return is DRes.ok;
   - the unbounded label-reading loop of NewQuestionFromBytes is modelled
     with a fuel parameter; the callers pass fuel larger than the greatest
     possible number of iterations (each iteration advances the offset by
     at least one position and requires the offset to be inside the buffer),
     and lemma parseLabels_fuel_agree shows the result does not depend on
     the fuel once the fuel exceeds the remaining buffer length. -/

namespace DnsServer

/-- Outcome of a Go computation: normal value, returned error, or runtime panic. -/
inductive DRes (α : Type) where
  | ok : α → DRes α
  | err : String → DRes α
  | crash : DRes α
deriving DecidableEq, Repr

/-- True exactly when the computation returned a Go error value. -/
def DRes.isErr {α : Type} : DRes α → Bool
  | .err _ => true
  | _ => false

/-- DNS header: six uint16 fields, mirroring struct Header of part_001. -/
structure Header where
  ID : Nat
  Flags : Nat
  QuestionsCount : Nat
  AnswerCount : Nat
  AuthorityCount : Nat
  AdditionalCount : Nat
deriving DecidableEq, Repr

/-- Mirrors func NewHeader of part_001. -/
def NewHeader (id flags questionCount answerCount authorityCount additionalCount : Nat) : Header :=
  ⟨id, flags, questionCount, answerCount, authorityCount, additionalCount⟩

/-- The uint16 range invariant carried by every Go Header value. -/
def Header.wf (h : Header) : Prop :=
  h.ID < 65536 ∧ h.Flags < 65536 ∧ h.QuestionsCount < 65536 ∧
  h.AnswerCount < 65536 ∧ h.AuthorityCount < 65536 ∧ h.AdditionalCount < 65536

instance (h : Header) : Decidable h.wf := by
  unfold Header.wf
  infer_instance

/-- Mirrors Header.SetQuery of part_001: isQuery = true clears bit 15 of
Flags (Go Flags AND NOT 0x8000, on uint16 this is AND 0x7FFF), isQuery =
false sets bit 15 (OR 0x8000). -/
def Header.SetQuery (h : Header) (isQuery : Bool) : Header :=
  if isQuery then { h with Flags := h.Flags &&& 32767 }
  else { h with Flags := h.Flags ||| 32768 }

def RCODE_NO_ERROR : Nat := 0
def RCODE_FORMAT_ERROR : Nat := 1
def RCODE_SERVER_FAILURE : Nat := 2
def RCODE_NAME_ERROR : Nat := 3
def RCODE_NOT_IMPLEMENTED : Nat := 4
def RCODE_REFUSED : Nat := 5

/-- Mirrors Header.SetResponseCode of part_001: the uint8 code is masked to
its low 4 bits (code AND 0x0F), the low 4 bits of Flags are cleared
(Go Flags AND NOT 0x000F, on uint16 this is AND 0xFFF0 = 65520) and the
masked code is OR-ed in. code mod 256 models the uint8 argument type. -/
def Header.SetResponseCode (h : Header) (code : Nat) : Header :=
  { h with Flags := (h.Flags &&& 65520) ||| (code % 256 &&& 15) }

/-- High byte of a uint16 written big-endian by binary.Write. -/
def u16hi (x : Nat) : Nat := x / 256 % 256

/-- Low byte of a uint16 written big-endian by binary.Write. -/
def u16lo (x : Nat) : Nat := x % 256

/-- Mirrors Header.MarshalBinary of part_001: binary.Write with BigEndian
packs the six uint16 fields in declaration order, two bytes each, no
padding. The write to a bytes.Buffer cannot fail, so the Go error result
is always nil and is dropped here. -/
def Header.MarshalBinary (h : Header) : List Nat :=
  [u16hi h.ID, u16lo h.ID,
   u16hi h.Flags, u16lo h.Flags,
   u16hi h.QuestionsCount, u16lo h.QuestionsCount,
   u16hi h.AnswerCount, u16lo h.AnswerCount,
   u16hi h.AuthorityCount, u16lo h.AuthorityCount,
   u16hi h.AdditionalCount, u16lo h.AdditionalCount]

/-- Big-endian uint16 read of two adjacent bytes, as binary.BigEndian.Uint16
and binary.Read produce on byte data. -/
def be16 (data : List Nat) (i : Nat) : Nat :=
  data.getD i 0 * 256 + data.getD (i + 1) 0

/-- Mirrors NewHeaderFromBytes of part_001: binary.Read consumes exactly 12
bytes from the reader, in field order, big-endian; with fewer than 12 bytes
available it returns an error (io.EOF or io.ErrUnexpectedEOF). -/
def NewHeaderFromBytes (data : List Nat) : DRes Header :=
  if 12 ≤ data.length then
    .ok ⟨be16 data 0, be16 data 2, be16 data 4, be16 data 6, be16 data 8, be16 data 10⟩
  else .err "unexpected EOF"

/-- DNS question, mirroring struct Question of part_001. Name is the Go
string as a byte list. -/
structure Question where
  Name : List Nat
  «Type» : Nat
  «Class» : Nat
deriving DecidableEq, Repr

/-- Mirrors nameToLabels of part_001: strings.Split(name, ".") on byte 46. -/
def nameToLabels (name : List Nat) : List (List Nat) :=
  name.splitOn 46

/-- One length-prefixed label as Question.MarshalBinary emits it:
byte(len(label)) then the raw label bytes. -/
def encLabel (label : List Nat) : List Nat :=
  label.length % 256 :: label

/-- Mirrors Question.MarshalBinary of part_001: each label of the dot-split
name length-prefixed, a zero terminator byte, then Type and Class as
big-endian uint16. -/
def Question.MarshalBinary (q : Question) : List Nat :=
  (nameToLabels q.Name).flatMap encLabel ++ [0] ++
    [u16hi q.«Type», u16lo q.«Type», u16hi q.«Class», u16lo q.«Class»]

/-- The label-reading loop of NewQuestionFromBytes of part_001. Each
iteration reads the length byte at the current offset (panic when the
offset is past the end), stops after a zero length byte, otherwise takes
that many label bytes (Go data[offset:offset+length], panic when the end
lies past the buffer) and continues behind them. Returns the labels and
the offset just past the zero terminator. The fuel argument only bounds
the recursion; callers pass more fuel than any run can use. -/
def parseLabels : Nat → List Nat → Nat → DRes (List (List Nat) × Nat)
  | 0, _, _ => .crash
  | fuel + 1, data, offset =>
    if offset < data.length then
      let len := data.getD offset 0
      if len = 0 then .ok ([], offset + 1)
      else if offset + 1 + len ≤ data.length then
        match parseLabels fuel data (offset + 1 + len) with
        | .ok (ls, off) => .ok ((data.drop (offset + 1)).take len :: ls, off)
        | .err e => .err e
        | .crash => .crash
      else .crash
    else .crash

/-- Mirrors NewQuestionFromBytes of part_001: error on an empty buffer,
error on a zero first length byte, then the label loop, then two big-endian
uint16 reads for Type and Class (Go data[offset:offset+2] and
data[offset+2:offset+4], panic when offset+4 exceeds the buffer length).
Name is strings.Join(labels, "."). Returns the question and the consumed
byte count offset+4. -/
def NewQuestionFromBytes (data : List Nat) : DRes (Question × Nat) :=
  if data.length = 0 then .err "not enough data"
  else if data.headD 0 = 0 then .err "invalid question"
  else
    match parseLabels (data.length + 1) data 0 with
    | .ok (ls, offset) =>
      if offset + 4 ≤ data.length then
        .ok (⟨List.intercalate [46] ls, be16 data offset, be16 data (offset + 2)⟩, offset + 4)
      else .crash
    | .err e => .err e
    | .crash => .crash

/-- DNS answer, mirroring struct Answer of part_001. -/
structure Answer where
  Name : List Nat
  «Type» : Nat
  «Class» : Nat
  TTL : Nat
  Length : Nat
  Data : List Nat
deriving DecidableEq, Repr

/-- Big-endian bytes of a uint32, as binary.Write emits TTL. -/
def be32bytes (x : Nat) : List Nat :=
  [x / 16777216 % 256, x / 65536 % 256, x / 256 % 256, x % 256]

/-- Mirrors Answer.MarshalBinary of part_001: the label encoding of Name,
a zero terminator, then Type, Class, TTL, Length big-endian and the raw
Data bytes. -/
def Answer.MarshalBinary (a : Answer) : List Nat :=
  (nameToLabels a.Name).flatMap encLabel ++ [0] ++
    [u16hi a.«Type», u16lo a.«Type», u16hi a.«Class», u16lo a.«Class»] ++
    be32bytes a.TTL ++ [u16hi a.Length, u16lo a.Length] ++ a.Data

/-- DNS message, mirroring struct Message of part_001. -/
structure Message where
  Header : Header
  Questions : List Question
  Answers : List Answer
deriving DecidableEq, Repr

/-- The question loop of NewMessageFromBytes of part_001. The Go loop keeps
the whole buffer in data, parses each question from data[12:] (panic when
the buffer holds fewer than 12 bytes) and then re-slices data = data[n:]
(panic when n exceeds the buffer length), so successive questions are read
from original[12 + sum of earlier consumed counts:]. Returns the parsed
questions and the final buffer. -/
def parseQuestions : List Nat → Nat → DRes (List Question × List Nat)
  | data, 0 => .ok ([], data)
  | data, count + 1 =>
    if 12 ≤ data.length then
      match NewQuestionFromBytes (data.drop 12) with
      | .ok (q, n) =>
        if n ≤ data.length then
          match parseQuestions (data.drop n) count with
          | .ok (qs, final) => .ok (q :: qs, final)
          | .err e => .err e
          | .crash => .crash
        else .crash
      | .err e => .err e
      | .crash => .crash
    else .crash

/-- Mirrors NewMessageFromBytes of part_001: decode the header, then decode
exactly Header.QuestionsCount questions, then overwrite the question count
of the returned header with uint16(len(questions)). Answers are never
decoded. -/
def NewMessageFromBytes (data : List Nat) : DRes Message :=
  match NewHeaderFromBytes data with
  | .ok h =>
    match parseQuestions data h.QuestionsCount with
    | .ok (qs, _) =>
      .ok { Header := { h with QuestionsCount := qs.length % 65536 },
            Questions := qs, Answers := [] }
    | .err e => .err e
    | .crash => .crash
  | .err e => .err e
  | .crash => .crash

/-- Mirrors Message.MarshalBinary of part_001: header bytes, then each
question encoded in order, then each answer encoded in order. The byte
buffer writes cannot fail, so the Go error result is always nil. -/
def Message.MarshalBinary (m : Message) : List Nat :=
  m.Header.MarshalBinary ++
    m.Questions.flatMap Question.MarshalBinary ++
    m.Answers.flatMap Answer.MarshalBinary

/-- Mirrors Message.AddAnswers of part_001: the field assignment
m.Answers = answers replaces the answer list. -/
def Message.AddAnswers (m : Message) (answers : List Answer) : Message :=
  { m with Answers := answers }

/-- Mirrors Message.SetResponse of part_001: set the QR bit to response,
AnswerCount to uint16(lenAnswers), AdditionalCount to 0. -/
def Message.SetResponse (m : Message) (lenAnswers : Nat) : Message :=
  { m with Header :=
      { m.Header.SetQuery false with
          AnswerCount := lenAnswers % 65536,
          AdditionalCount := 0 } }

/-- The synthetic answer ProcessQuestions builds for one question: the
question fields plus TTL 60, Data 8.8.8.8 and Length = len(Data) = 4. -/
def synthAnswer (q : Question) : Answer :=
  ⟨q.Name, q.«Type», q.«Class», 60, 4, [8, 8, 8, 8]⟩

/-- Mirrors Message.ProcessQuestions of part_001: build one synthetic
answer per question in order, install them with AddAnswers and finish with
SetResponse(len(answers)). -/
def Message.ProcessQuestions (m : Message) : Message :=
  let answers := m.Questions.map synthAnswer
  (m.AddAnswers answers).SetResponse answers.length

/-- Mirrors struct Options of server.go. The resolver address is a Go
string, modelled as a Lean String (its byte content is irrelevant here). -/
structure Options where
  Resolver : String
deriving DecidableEq, Repr

/-- Mirrors struct Server of server.go. -/
structure Server where
  opts : Options
deriving DecidableEq, Repr

/-- Mirrors NewServer of server.go. -/
def NewServer (opts : Options) : Server := ⟨opts⟩

/-- Mirrors Server.shouldForwardQuery of server.go: forwarding is active
exactly when the resolver string is non-empty. -/
def Server.shouldForwardQuery (s : Server) : Bool :=
  s.opts.Resolver != ""

/-- Mirrors Server.handleLocalQuery of server.go as a function from the
received datagram to the list of datagrams written to the connection:
on a decode error the handler logs and returns with no write (and it never
closes the connection; server.go has no Close call in this handler); on
success it writes the marshalled processed message. A Go panic inside the
decode propagates, modelled as none. -/
def handleLocalQuery (queryBytes : List Nat) : Option (List (List Nat)) :=
  match NewMessageFromBytes queryBytes with
  | .ok msg => some [msg.ProcessQuestions.MarshalBinary]
  | .err _ => some []
  | .crash => none

/-- The message Server.handleForwardingError builds from the decoded query:
SetResponseCode(RCODE_SERVER_FAILURE) on the header, then
AdditionalCount = 0. -/
def forwardFailResponse (msg : Message) : Message :=
  { msg with Header :=
      { msg.Header.SetResponseCode RCODE_SERVER_FAILURE with AdditionalCount := 0 } }

/-- Mirrors Server.handleForwardingError of server.go as a function from
the original query datagram to the list of datagrams written back: on a
decode error nothing is written; otherwise the marshalled fallback
response is written to the original sender address. -/
def handleForwardingError (queryBytes : List Nat) : Option (List (List Nat)) :=
  match NewMessageFromBytes queryBytes with
  | .ok msg => some [(forwardFailResponse msg).MarshalBinary]
  | .err _ => some []
  | .crash => none

/-- The example query of the repository tests: ID 12345, one question for
example.com with type 1, class 1. -/
def exampleQueryBytes : List Nat :=
  [48, 57, 0, 0, 0, 1, 0, 0, 0, 0, 0, 0,
   7, 101, 120, 97, 109, 112, 108, 101, 3, 99, 111, 109, 0, 0, 1, 0, 1]

/-- The decoded form of exampleQueryBytes. -/
def exampleQueryMsg : Message :=
  ⟨⟨12345, 0, 1, 0, 0, 0⟩,
   [⟨[101, 120, 97, 109, 112, 108, 101, 46, 99, 111, 109], 1, 1⟩], []⟩

/-- A concrete query for the C5 witness: ID 1, flags 0, one question for
label a, additional count 7. -/
def c5QueryBytes : List Nat :=
  [0, 1, 0, 0, 0, 1, 0, 0, 0, 0, 0, 7, 1, 97, 0, 0, 1, 0, 1]

/-- The decoded form of c5QueryBytes. -/
def c5QueryMsg : Message := ⟨⟨1, 0, 1, 0, 0, 7⟩, [⟨[97], 1, 1⟩], []⟩

/-- A concrete query for the C10 witness: ID 258, flags 0x8180 (QR bit
set), one question for label b of type 2 class 3, answer count 3,
additional count 9. -/
def c10QueryBytes : List Nat :=
  [1, 2, 129, 128, 0, 1, 0, 3, 0, 0, 0, 9, 1, 98, 0, 0, 2, 0, 3]

/-- The decoded form of c10QueryBytes. -/
def c10QueryMsg : Message := ⟨⟨258, 33152, 1, 3, 0, 9⟩, [⟨[98], 2, 3⟩], []⟩

/-- A well-formed DNS name for round-tripping: every dot-separated label is
non-empty and at most 255 bytes, and every byte is ASCII. -/
def validName (name : List Nat) : Prop :=
  (∀ l ∈ name.splitOn 46, l ≠ [] ∧ l.length ≤ 255) ∧ ∀ b ∈ name, b < 128

instance (name : List Nat) : Decidable (validName name) := by
  unfold validName
  infer_instance

/-- The uint16 range and name invariants of a Go Question value with a
well-formed name. -/
def Question.wf (q : Question) : Prop :=
  validName q.Name ∧ q.«Type» < 65536 ∧ q.«Class» < 65536

instance (q : Question) : Decidable q.wf := by
  unfold Question.wf
  infer_instance

/-- The message of the C3 witness: two questions, example.com type 1
class 1 and ab.cd type 255 class 3, flags 256. -/
def c3Msg : Message :=
  ⟨⟨12345, 256, 2, 0, 0, 0⟩,
   [⟨[101, 120, 97, 109, 112, 108, 101, 46, 99, 111, 109], 1, 1⟩,
    ⟨[97, 98, 46, 99, 100], 255, 3⟩], []⟩

/-- Bits of the mask 65520 = 0xFFF0: set exactly at positions 4 to 15. -/
theorem testBit_65520 (i : Nat) :
    Nat.testBit 65520 i = (decide (4 ≤ i) && decide (i < 16)) := by
  rcases Nat.lt_or_ge i 16 with h | h
  · interval_cases i <;> decide
  · have h2 : (65520 : Nat) < 2 ^ i :=
      lt_of_lt_of_le (by norm_num) (Nat.pow_le_pow_right (by norm_num) h)
    simp [Nat.testBit_lt_two_pow h2, show ¬ (i < 16) by omega]

/-- Bits of 15: set exactly at positions 0 to 3. -/
theorem testBit_15 (i : Nat) : Nat.testBit 15 i = decide (i < 4) := by
  rcases Nat.lt_or_ge i 4 with h | h
  · interval_cases i <;> decide
  · have h2 : (15 : Nat) < 2 ^ i :=
      lt_of_lt_of_le (by norm_num) (Nat.pow_le_pow_right (by norm_num) h)
    simp [Nat.testBit_lt_two_pow h2, show ¬ (i < 4) by omega]

/-- The Flags value built by SetResponseCode, reduced mod 16: exactly the
masked code. -/
theorem setRCode_mod16 (f c : Nat) :
    ((f &&& 65520) ||| (c % 256 &&& 15)) % 16 = c % 16 := by
  apply Nat.eq_of_testBit_eq
  intro i
  have h16 : (16 : Nat) = 2 ^ 4 := by norm_num
  have h256 : (256 : Nat) = 2 ^ 8 := by norm_num
  simp only [h16, h256, Nat.testBit_mod_two_pow, Nat.testBit_or, Nat.testBit_and,
    testBit_65520, testBit_15]
  rcases Nat.lt_or_ge i 4 with h | h
  · simp [h, show i < 8 by omega, show ¬ (4 ≤ i) by omega]
  · simp [show ¬ (i < 4) by omega]

/-- The Flags value built by SetResponseCode, divided by 16: bits 4 to 15
of the original uint16 Flags are kept. -/
theorem setRCode_div16 (f c : Nat) (hf : f < 65536) :
    ((f &&& 65520) ||| (c % 256 &&& 15)) / 16 = f / 16 := by
  have e : ∀ x : Nat, x / 16 = x >>> 4 := by
    intro x
    rw [Nat.shiftRight_eq_div_pow]
  rw [e, e]
  apply Nat.eq_of_testBit_eq
  intro i
  simp only [Nat.testBit_shiftRight, Nat.testBit_or, Nat.testBit_and,
    testBit_65520, testBit_15]
  rcases Nat.lt_or_ge (4 + i) 16 with h | h
  · simp [show 4 ≤ 4 + i by omega, h, show ¬ (4 + i < 4) by omega]
  · have hpow : (65536 : Nat) ≤ 2 ^ (4 + i) := by
      calc (65536 : Nat) = 2 ^ 16 := by norm_num
        _ ≤ 2 ^ (4 + i) := Nat.pow_le_pow_right (by norm_num) h
    have hflt : f < 2 ^ (4 + i) := lt_of_lt_of_le hf hpow
    simp [Nat.testBit_lt_two_pow hflt, show ¬ (4 + i < 16) by omega,
      show ¬ (4 + i < 4) by omega]

/-- Setting the QR bit: bit 15 of any value OR 0x8000 is 1. -/
theorem lor_32768_testBit15 (f : Nat) : (f ||| 32768).testBit 15 = true := by
  rw [Nat.testBit_or]
  simp [show Nat.testBit 32768 15 = true from by decide]

/-- Values with equal quotients by 16 have the same bit 15. -/
theorem div16_testBit15 {x y : Nat} (h : x / 16 = y / 16) :
    x.testBit 15 = y.testBit 15 := by
  have e2 : ∀ z : Nat, z >>> 4 = z / 16 := by
    intro z
    rw [Nat.shiftRight_eq_div_pow]
  have e : ∀ z : Nat, z.testBit 15 = (z / 16).testBit 11 := by
    intro z
    rw [← e2, Nat.testBit_shiftRight]
  calc x.testBit 15 = (x / 16).testBit 11 := e x
    _ = (y / 16).testBit 11 := by rw [h]
    _ = y.testBit 15 := (e y).symm

/-- C7: for every Header h and 8-bit code c, SetResponseCode changes only
the low 4 bits of Flags, setting them to c mod 16; bits 4 through 15 of
Flags (the quotient by 16) and the other five header fields are unchanged. -/
theorem C7_setResponseCode_frame (h : Header) (c : Nat) (hf : h.Flags < 65536) :
    (h.SetResponseCode c).Flags % 16 = c % 16 ∧
    (h.SetResponseCode c).Flags / 16 = h.Flags / 16 ∧
    (h.SetResponseCode c).ID = h.ID ∧
    (h.SetResponseCode c).QuestionsCount = h.QuestionsCount ∧
    (h.SetResponseCode c).AnswerCount = h.AnswerCount ∧
    (h.SetResponseCode c).AuthorityCount = h.AuthorityCount ∧
    (h.SetResponseCode c).AdditionalCount = h.AdditionalCount :=
  ⟨setRCode_mod16 h.Flags c, setRCode_div16 h.Flags c hf, rfl, rfl, rfl, rfl, rfl⟩

/-- C7 witness at Header ⟨9, 43690, 1, 2, 3, 4⟩ and code 200. -/
theorem C7_witness :
    ((⟨9, 43690, 1, 2, 3, 4⟩ : Header).SetResponseCode 200).Flags % 16 = 200 % 16 ∧
    ((⟨9, 43690, 1, 2, 3, 4⟩ : Header).SetResponseCode 200).Flags / 16 = (⟨9, 43690, 1, 2, 3, 4⟩ : Header).Flags / 16 ∧
    ((⟨9, 43690, 1, 2, 3, 4⟩ : Header).SetResponseCode 200).ID = (⟨9, 43690, 1, 2, 3, 4⟩ : Header).ID ∧
    ((⟨9, 43690, 1, 2, 3, 4⟩ : Header).SetResponseCode 200).QuestionsCount = (⟨9, 43690, 1, 2, 3, 4⟩ : Header).QuestionsCount ∧
    ((⟨9, 43690, 1, 2, 3, 4⟩ : Header).SetResponseCode 200).AnswerCount = (⟨9, 43690, 1, 2, 3, 4⟩ : Header).AnswerCount ∧
    ((⟨9, 43690, 1, 2, 3, 4⟩ : Header).SetResponseCode 200).AuthorityCount = (⟨9, 43690, 1, 2, 3, 4⟩ : Header).AuthorityCount ∧
    ((⟨9, 43690, 1, 2, 3, 4⟩ : Header).SetResponseCode 200).AdditionalCount = (⟨9, 43690, 1, 2, 3, 4⟩ : Header).AdditionalCount :=
  C7_setResponseCode_frame ⟨9, 43690, 1, 2, 3, 4⟩ 200 (by decide)

/-- C8: forwarding is active exactly when the configured resolver string is
non-empty; the decision depends on nothing but that string. -/
theorem C8_shouldForward_iff (s : Server) :
    (s.shouldForwardQuery = true ↔ s.opts.Resolver ≠ "") ∧
    (s.shouldForwardQuery = false ↔ s.opts.Resolver = "") := by
  constructor
  · simp [Server.shouldForwardQuery]
  · simp [Server.shouldForwardQuery]

/-- C2 evidence: decoding a question whose label bytes or trailing fields
would extend past the end of the buffer does not return an error value;
the code indexes and slices past the buffer end, a Go runtime panic.
Buffer 3,97 has length byte 3 with only one byte following (the Go slice
data[1:4] with len(data) = 2 panics); buffer 1,97,0 has a complete label
but lacks the four trailing type and class bytes (data[3:5] with
len(data) = 3 panics). -/
theorem C2_truncated_question_crash :
    NewQuestionFromBytes [3, 97] = .crash ∧
    NewQuestionFromBytes [1, 97, 0] = .crash :=
  ⟨rfl, rfl⟩

/-- AnswerCount after ProcessQuestions is the uint16 conversion of the
question count. -/
theorem processQuestions_answerCount (m : Message) :
    m.ProcessQuestions.Header.AnswerCount = m.Questions.length % 65536 :=
  congrArg (fun n => n % 65536) (List.length_map m.Questions synthAnswer)

/-- C1 (amended): ProcessQuestions makes the answer list exactly one
synthetic answer per question, in question order, each carrying the
matching question Name, Type and Class with TTL 60, Data 8.8.8.8 and
Length 4; AnswerCount becomes N mod 65536 (uint16 conversion, so N itself
whenever N < 65536, in particular N = 0), AdditionalCount becomes 0, the
QR bit (bit 15 of Flags) becomes 1, and ID, QuestionsCount and the
question list are untouched. -/
theorem C1_processQuestions (m : Message) :
    m.ProcessQuestions.Answers = m.Questions.map synthAnswer ∧
    (∀ q, synthAnswer q = ⟨q.Name, q.«Type», q.«Class», 60, 4, [8, 8, 8, 8]⟩) ∧
    m.ProcessQuestions.Answers.length = m.Questions.length ∧
    m.ProcessQuestions.Header.AnswerCount = m.Questions.length % 65536 ∧
    m.ProcessQuestions.Header.AdditionalCount = 0 ∧
    m.ProcessQuestions.Header.Flags.testBit 15 = true ∧
    m.ProcessQuestions.Header.ID = m.Header.ID ∧
    m.ProcessQuestions.Header.QuestionsCount = m.Header.QuestionsCount ∧
    m.ProcessQuestions.Questions = m.Questions := by
  refine ⟨rfl, fun q => rfl, List.length_map m.Questions synthAnswer,
    processQuestions_answerCount m,
    rfl, lor_32768_testBit15 m.Header.Flags, rfl, rfl, rfl⟩

/-- C1 counterexample: a Message with 65536 questions. uint16 truncation
makes AnswerCount 65536 mod 65536 = 0, not the question count 65536. -/
theorem C1_counterexample :
    (Message.ProcessQuestions
        ⟨⟨0, 0, 0, 0, 0, 0⟩, List.replicate 65536 ⟨[97], 1, 1⟩, []⟩).Header.AnswerCount ≠
      (List.replicate 65536 (⟨[97], 1, 1⟩ : Question)).length := by
  have hq : (⟨⟨0, 0, 0, 0, 0, 0⟩, List.replicate 65536 ⟨[97], 1, 1⟩, []⟩ : Message).Questions
      = List.replicate 65536 ⟨[97], 1, 1⟩ := rfl
  simp only [processQuestions_answerCount, hq, List.length_replicate]
  decide

/-- A uint16 is recovered from its two big-endian bytes. -/
theorem u16_recompose (x : Nat) (hx : x < 65536) : u16hi x * 256 + u16lo x = x := by
  simp only [u16hi, u16lo]
  omega

/-- Header decode inverts Header encode on any buffer that starts with the
12 encoded bytes, for every Header within the uint16 range. -/
theorem header_roundtrip (h : Header) (hwf : h.wf) (tail : List Nat) :
    NewHeaderFromBytes (h.MarshalBinary ++ tail) = .ok h := by
  obtain ⟨i, f, qc, ac, auc, adc⟩ := h
  obtain ⟨h1, h2, h3, h4, h5, h6⟩ := hwf
  have hlen : 12 ≤ (Header.MarshalBinary ⟨i, f, qc, ac, auc, adc⟩ ++ tail).length := by
    simp [Header.MarshalBinary]
  simp only [NewHeaderFromBytes]
  rw [if_pos hlen]
  have e0 : be16 (Header.MarshalBinary ⟨i, f, qc, ac, auc, adc⟩ ++ tail) 0
      = u16hi i * 256 + u16lo i := rfl
  have e2 : be16 (Header.MarshalBinary ⟨i, f, qc, ac, auc, adc⟩ ++ tail) 2
      = u16hi f * 256 + u16lo f := rfl
  have e4 : be16 (Header.MarshalBinary ⟨i, f, qc, ac, auc, adc⟩ ++ tail) 4
      = u16hi qc * 256 + u16lo qc := rfl
  have e6 : be16 (Header.MarshalBinary ⟨i, f, qc, ac, auc, adc⟩ ++ tail) 6
      = u16hi ac * 256 + u16lo ac := rfl
  have e8 : be16 (Header.MarshalBinary ⟨i, f, qc, ac, auc, adc⟩ ++ tail) 8
      = u16hi auc * 256 + u16lo auc := rfl
  have e10 : be16 (Header.MarshalBinary ⟨i, f, qc, ac, auc, adc⟩ ++ tail) 10
      = u16hi adc * 256 + u16lo adc := rfl
  rw [e0, e2, e4, e6, e8, e10, u16_recompose i h1, u16_recompose f h2,
    u16_recompose qc h3, u16_recompose ac h4, u16_recompose auc h5, u16_recompose adc h6]

/-- C4: for every Header with arbitrary uint16 field values, encoding
produces exactly 12 bytes, the six fields packed big-endian in declaration
order, and decoding those bytes returns the identical Header. -/
theorem C4_header_roundtrip (h : Header) (hwf : h.wf) :
    h.MarshalBinary.length = 12 ∧
    h.MarshalBinary = [h.ID / 256, h.ID % 256, h.Flags / 256, h.Flags % 256,
      h.QuestionsCount / 256, h.QuestionsCount % 256,
      h.AnswerCount / 256, h.AnswerCount % 256,
      h.AuthorityCount / 256, h.AuthorityCount % 256,
      h.AdditionalCount / 256, h.AdditionalCount % 256] ∧
    NewHeaderFromBytes h.MarshalBinary = .ok h := by
  obtain ⟨hI, hF, hQ, hA, hAu, hAd⟩ := hwf
  refine ⟨rfl, ?_, ?_⟩
  · have hi : ∀ x : Nat, x < 65536 → x / 256 % 256 = x / 256 := by
      intro x hx
      omega
    simp only [Header.MarshalBinary, u16hi, u16lo]
    rw [hi _ hI, hi _ hF, hi _ hQ, hi _ hA, hi _ hAu, hi _ hAd]
  · have hrt := header_roundtrip h ⟨hI, hF, hQ, hA, hAu, hAd⟩ []
    simpa using hrt

/-- C4 witness at Header ⟨513, 33097, 7, 65535, 0, 258⟩. -/
theorem C4_witness :
    (Header.MarshalBinary ⟨513, 33097, 7, 65535, 0, 258⟩).length = 12 ∧
    Header.MarshalBinary ⟨513, 33097, 7, 65535, 0, 258⟩ =
      [(⟨513, 33097, 7, 65535, 0, 258⟩ : Header).ID / 256,
       (⟨513, 33097, 7, 65535, 0, 258⟩ : Header).ID % 256,
       (⟨513, 33097, 7, 65535, 0, 258⟩ : Header).Flags / 256,
       (⟨513, 33097, 7, 65535, 0, 258⟩ : Header).Flags % 256,
       (⟨513, 33097, 7, 65535, 0, 258⟩ : Header).QuestionsCount / 256,
       (⟨513, 33097, 7, 65535, 0, 258⟩ : Header).QuestionsCount % 256,
       (⟨513, 33097, 7, 65535, 0, 258⟩ : Header).AnswerCount / 256,
       (⟨513, 33097, 7, 65535, 0, 258⟩ : Header).AnswerCount % 256,
       (⟨513, 33097, 7, 65535, 0, 258⟩ : Header).AuthorityCount / 256,
       (⟨513, 33097, 7, 65535, 0, 258⟩ : Header).AuthorityCount % 256,
       (⟨513, 33097, 7, 65535, 0, 258⟩ : Header).AdditionalCount / 256,
       (⟨513, 33097, 7, 65535, 0, 258⟩ : Header).AdditionalCount % 256] ∧
    NewHeaderFromBytes (Header.MarshalBinary ⟨513, 33097, 7, 65535, 0, 258⟩) =
      .ok ⟨513, 33097, 7, 65535, 0, 258⟩ :=
  C4_header_roundtrip ⟨513, 33097, 7, 65535, 0, 258⟩ (by decide)

/-- Every entry read from a byte list (default 0) is below 256. -/
theorem getD_lt_256 : ∀ (d : List Nat), (∀ b ∈ d, b < 256) → ∀ i, d.getD i 0 < 256
  | [], _, i => by simp [List.getD_nil]
  | b :: rest, hb, 0 => by simpa using hb b (by simp)
  | b :: rest, hb, i + 1 => by
      simpa using getD_lt_256 rest (fun x hx => hb x (by simp [hx])) i

/-- A big-endian uint16 read from byte data is below 65536. -/
theorem be16_lt {d : List Nat} (hb : ∀ b ∈ d, b < 256) (i : Nat) : be16 d i < 65536 := by
  have h1 := getD_lt_256 d hb i
  have h2 := getD_lt_256 d hb (i + 1)
  simp only [be16]
  omega

/-- The question loop parses exactly the requested number of questions
whenever it succeeds. -/
theorem parseQuestions_ok_length (count : Nat) :
    ∀ (data : List Nat) (qs : List Question) (fin : List Nat),
      parseQuestions data count = .ok (qs, fin) → qs.length = count := by
  induction count with
  | zero =>
    intro data qs fin h
    simp only [parseQuestions] at h
    cases h
    rfl
  | succ c ih =>
    intro data qs fin h
    by_cases h12 : 12 ≤ data.length
    · cases hq : NewQuestionFromBytes (data.drop 12) with
      | ok p =>
        obtain ⟨q, n⟩ := p
        by_cases hn : n ≤ data.length
        · cases hp : parseQuestions (data.drop n) c with
          | ok pr =>
            obtain ⟨qs2, f2⟩ := pr
            simp only [parseQuestions, h12, hq, hn, hp, if_true] at h
            cases h
            simp [ih _ _ _ hp]
          | err e => simp [parseQuestions, h12, hq, hn, hp] at h
          | crash => simp [parseQuestions, h12, hq, hn, hp] at h
        · simp [parseQuestions, h12, hq, hn] at h
      | err e => simp [parseQuestions, h12, hq] at h
      | crash => simp [parseQuestions, h12, hq] at h
    · simp [parseQuestions, h12] at h

/-- C9: whenever message decode succeeds, the returned header question
count equals the number of parsed questions, and both equal the question
count field of the wire header (bytes 4 and 5 big-endian): the post-parse
overwrite never changes the value. -/
theorem C9_decode_count (d : List Nat) (m : Message)
    (hb : ∀ b ∈ d, b < 256) (h : NewMessageFromBytes d = .ok m) :
    m.Header.QuestionsCount = m.Questions.length ∧
    m.Questions.length = be16 d 4 := by
  unfold NewMessageFromBytes at h
  cases hh : NewHeaderFromBytes d with
  | err e =>
    simp only [hh] at h
    exact DRes.noConfusion h
  | crash =>
    simp only [hh] at h
    exact DRes.noConfusion h
  | ok hd =>
    simp only [hh] at h
    cases hq : parseQuestions d hd.QuestionsCount with
    | err e =>
      simp only [hq] at h
      exact DRes.noConfusion h
    | crash =>
      simp only [hq] at h
      exact DRes.noConfusion h
    | ok pr =>
      obtain ⟨qs, fin⟩ := pr
      simp only [hq] at h
      have hcount : qs.length = hd.QuestionsCount := parseQuestions_ok_length _ _ _ _ hq
      have hqc : hd.QuestionsCount = be16 d 4 := by
        unfold NewHeaderFromBytes at hh
        by_cases h12 : 12 ≤ d.length
        · rw [if_pos h12] at hh
          cases hh
          rfl
        · rw [if_neg h12] at hh
          cases hh
      have hlt : be16 d 4 < 65536 := be16_lt hb 4
      cases h
      refine ⟨?_, ?_⟩
      · show qs.length % 65536 = qs.length
        rw [hcount, hqc]
        exact Nat.mod_eq_of_lt hlt
      · rw [hcount, hqc]

/-- getD at 0 after a drop is getD at the drop count. -/
theorem getD_drop_zero : ∀ (l : List Nat) (n : Nat), (l.drop n).getD 0 0 = l.getD n 0
  | [], n => by simp
  | x :: xs, 0 => by simp
  | x :: xs, n + 1 => by simp [getD_drop_zero xs n]

/-- headD with default 0 is getD at index 0. -/
theorem headD_eq_getD_zero (l : List Nat) : l.headD 0 = l.getD 0 0 := by
  cases l <;> simp

/-- handleLocalQuery writes nothing when message decode returns an error. -/
theorem handleLocal_err (d : List Nat) (h : (NewMessageFromBytes d).isErr = true) :
    handleLocalQuery d = some [] := by
  unfold handleLocalQuery
  cases hm : NewMessageFromBytes d with
  | ok msg =>
    rw [hm] at h
    simp [DRes.isErr] at h
  | err e => simp [hm]
  | crash =>
    rw [hm] at h
    simp [DRes.isErr] at h

/-- A buffer shorter than 12 bytes makes message decode return an error. -/
theorem decode_isErr_of_short (d : List Nat) (h12 : d.length < 12) :
    (NewMessageFromBytes d).isErr = true := by
  have hh : NewHeaderFromBytes d = .err "unexpected EOF" := by
    unfold NewHeaderFromBytes
    rw [if_neg (by omega)]
  simp [NewMessageFromBytes, hh, DRes.isErr]

/-- A wire header reporting a nonzero question count over a first question
whose first label length byte is zero makes message decode return an error. -/
theorem decode_isErr_of_zero_label (d : List Nat) (h12 : 12 ≤ d.length)
    (hqc : be16 d 4 ≠ 0) (h0 : d.getD 12 0 = 0) :
    (NewMessageFromBytes d).isErr = true := by
  have hh : NewHeaderFromBytes d
      = .ok ⟨be16 d 0, be16 d 2, be16 d 4, be16 d 6, be16 d 8, be16 d 10⟩ := by
    unfold NewHeaderFromBytes
    rw [if_pos h12]
  have hq : (NewQuestionFromBytes (d.drop 12)).isErr = true := by
    unfold NewQuestionFromBytes
    by_cases hlen : (d.drop 12).length = 0
    · rw [if_pos hlen]
      rfl
    · rw [if_neg hlen]
      have hhead : (d.drop 12).headD 0 = 0 := by
        rw [headD_eq_getD_zero, getD_drop_zero]
        exact h0
      rw [if_pos hhead]
      rfl
  cases hcnt : be16 d 4 with
  | zero => exact absurd hcnt hqc
  | succ c =>
    cases hqe : NewQuestionFromBytes (d.drop 12) with
    | ok p =>
      rw [hqe] at hq
      simp [DRes.isErr] at hq
    | crash =>
      rw [hqe] at hq
      simp [DRes.isErr] at hq
    | err e =>
      have hp : parseQuestions d (c + 1) = .err e := by
        simp [parseQuestions, h12, hqe]
      simp [NewMessageFromBytes, hh, hcnt, hp, DRes.isErr]

/-- C6: a datagram on which message decode fails (returns an error value)
is dropped by the local handler: nothing is written to the connection and
the handler performs no close (its write list is empty); in particular any
buffer shorter than 12 bytes, and any buffer whose wire header reports a
nonzero question count while the first question label length byte is
zero. -/
theorem C6_malformed_dropped (d : List Nat) :
    ((NewMessageFromBytes d).isErr = true → handleLocalQuery d = some []) ∧
    (d.length < 12 → handleLocalQuery d = some []) ∧
    (12 ≤ d.length → be16 d 4 ≠ 0 → d.getD 12 0 = 0 → handleLocalQuery d = some []) :=
  ⟨handleLocal_err d,
   fun h12 => handleLocal_err d (decode_isErr_of_short d h12),
   fun h12 hqc h0 => handleLocal_err d (decode_isErr_of_zero_label d h12 hqc h0)⟩

/-- C6 witness: a 4-byte datagram (the invalid query of the repository
tests), a 17-byte datagram with question count 3 and a zero first label
length byte, and the empty datagram. -/
theorem C6_witness :
    handleLocalQuery [0, 0, 0, 0] = some [] ∧
    handleLocalQuery [0, 9, 0, 0, 0, 3, 0, 0, 0, 0, 0, 0, 0, 0, 1, 0, 1] = some [] ∧
    handleLocalQuery [] = some [] :=
  ⟨(C6_malformed_dropped [0, 0, 0, 0]).2.1 (by decide),
   (C6_malformed_dropped [0, 9, 0, 0, 0, 3, 0, 0, 0, 0, 0, 0, 0, 0, 1, 0, 1]).2.2
     (by decide) (by decide) (by decide),
   (C6_malformed_dropped []).1 (by decide)⟩

/-- C9 witness at the example query. -/
theorem C9_witness :
    exampleQueryMsg.Header.QuestionsCount = exampleQueryMsg.Questions.length ∧
    exampleQueryMsg.Questions.length = be16 exampleQueryBytes 4 :=
  C9_decode_count exampleQueryBytes exampleQueryMsg (by decide) (by decide)

/-- The Flags of a successfully decoded message are the big-endian uint16
at bytes 2 and 3 of the wire. -/
theorem decode_ok_flags (d : List Nat) (m : Message) (h : NewMessageFromBytes d = .ok m) :
    m.Header.Flags = be16 d 2 := by
  unfold NewMessageFromBytes at h
  cases hh : NewHeaderFromBytes d with
  | err e =>
    simp only [hh] at h
    exact DRes.noConfusion h
  | crash =>
    simp only [hh] at h
    exact DRes.noConfusion h
  | ok hd =>
    simp only [hh] at h
    cases hq : parseQuestions d hd.QuestionsCount with
    | err e =>
      simp only [hq] at h
      exact DRes.noConfusion h
    | crash =>
      simp only [hq] at h
      exact DRes.noConfusion h
    | ok pr =>
      obtain ⟨qs, fin⟩ := pr
      simp only [hq] at h
      cases h
      show hd.Flags = be16 d 2
      unfold NewHeaderFromBytes at hh
      by_cases h12 : 12 ≤ d.length
      · rw [if_pos h12] at hh
        cases hh
        rfl
      · rw [if_neg h12] at hh
        cases hh

/-- Bytes 2 and 3 of a marshalled message are the big-endian Flags. -/
theorem be16_marshal_flags (m : Message) :
    be16 m.MarshalBinary 2 = u16hi m.Header.Flags * 256 + u16lo m.Header.Flags := rfl

/-- Bytes 10 and 11 of a marshalled message are the big-endian
AdditionalCount. -/
theorem be16_marshal_additional (m : Message) :
    be16 m.MarshalBinary 10
      = u16hi m.Header.AdditionalCount * 256 + u16lo m.Header.AdditionalCount := rfl

/-- The fallback response bytes carry RCODE 2 (server failure) in the low
4 bits of the flags bytes and 0 in the additional count bytes. -/
theorem forwardFail_bytes (m : Message) :
    be16 (forwardFailResponse m).MarshalBinary 2 % 16 = 2 ∧
    be16 (forwardFailResponse m).MarshalBinary 10 = 0 := by
  constructor
  · rw [be16_marshal_flags]
    have hproj : (forwardFailResponse m).Header.Flags
        = (m.Header.Flags &&& 65520) ||| (2 % 256 &&& 15) := rfl
    rw [hproj]
    have harith : ∀ x : Nat, (u16hi x * 256 + u16lo x) % 16 = x % 16 := by
      intro x
      simp only [u16hi, u16lo]
      omega
    rw [harith]
    have hcode := setRCode_mod16 m.Header.Flags 2
    simpa using hcode
  · rw [be16_marshal_additional]
    have hproj : (forwardFailResponse m).Header.AdditionalCount = 0 := rfl
    rw [hproj]
    rfl

/-- C5: when forwarding fails on a query whose bytes decode successfully,
the server writes exactly one datagram back to the sender: the re-encoded
query with RCODE (low 4 bits of the flags bytes) set to 2 (server failure)
and the additional count bytes zeroed; the failure never surfaces as a
missing reply. -/
theorem C5_forward_failure (q : List Nat) (m : Message)
    (h : NewMessageFromBytes q = .ok m) :
    handleForwardingError q = some [(forwardFailResponse m).MarshalBinary] ∧
    be16 (forwardFailResponse m).MarshalBinary 2 % 16 = RCODE_SERVER_FAILURE ∧
    be16 (forwardFailResponse m).MarshalBinary 10 = 0 :=
  ⟨by simp [handleForwardingError, h], (forwardFail_bytes m).1, (forwardFail_bytes m).2⟩

/-- C5 witness at c5QueryBytes. -/
theorem C5_witness :
    handleForwardingError c5QueryBytes
      = some [(forwardFailResponse c5QueryMsg).MarshalBinary] ∧
    be16 (forwardFailResponse c5QueryMsg).MarshalBinary 2 % 16 = RCODE_SERVER_FAILURE ∧
    be16 (forwardFailResponse c5QueryMsg).MarshalBinary 10 = 0 :=
  C5_forward_failure c5QueryBytes c5QueryMsg (by decide)

/-- C10: relative to the decoded query, the fallback response leaves the
QR bit (bit 15 of Flags), AnswerCount, the question list, the answer list,
ID, QuestionsCount, AuthorityCount and all flag bits above the RCODE
nibble (the quotient of Flags by 16) unchanged; only the low 4 RCODE bits
(set to 2) and AdditionalCount (set to 0) differ. -/
theorem C10_fallback_frame (q : List Nat) (m : Message)
    (hb : ∀ b ∈ q, b < 256) (h : NewMessageFromBytes q = .ok m) :
    handleForwardingError q = some [(forwardFailResponse m).MarshalBinary] ∧
    (forwardFailResponse m).Header.Flags.testBit 15 = m.Header.Flags.testBit 15 ∧
    (forwardFailResponse m).Header.AnswerCount = m.Header.AnswerCount ∧
    (forwardFailResponse m).Questions = m.Questions ∧
    (forwardFailResponse m).Answers = m.Answers ∧
    (forwardFailResponse m).Header.ID = m.Header.ID ∧
    (forwardFailResponse m).Header.QuestionsCount = m.Header.QuestionsCount ∧
    (forwardFailResponse m).Header.AuthorityCount = m.Header.AuthorityCount ∧
    (forwardFailResponse m).Header.Flags / 16 = m.Header.Flags / 16 ∧
    (forwardFailResponse m).Header.Flags % 16 = RCODE_SERVER_FAILURE ∧
    (forwardFailResponse m).Header.AdditionalCount = 0 := by
  have hflags : m.Header.Flags < 65536 := by
    rw [decode_ok_flags q m h]
    exact be16_lt hb 2
  have hdiv : (forwardFailResponse m).Header.Flags / 16 = m.Header.Flags / 16 :=
    setRCode_div16 m.Header.Flags 2 hflags
  have hmod : (forwardFailResponse m).Header.Flags % 16 = RCODE_SERVER_FAILURE := by
    have hcode := setRCode_mod16 m.Header.Flags 2
    simpa [RCODE_SERVER_FAILURE] using hcode
  exact ⟨by simp [handleForwardingError, h], div16_testBit15 hdiv, rfl, rfl, rfl, rfl,
    rfl, rfl, hdiv, hmod, rfl⟩

/-- C10 witness at c10QueryBytes. -/
theorem C10_witness :
    handleForwardingError c10QueryBytes
      = some [(forwardFailResponse c10QueryMsg).MarshalBinary] ∧
    (forwardFailResponse c10QueryMsg).Header.Flags.testBit 15
      = c10QueryMsg.Header.Flags.testBit 15 ∧
    (forwardFailResponse c10QueryMsg).Header.AnswerCount
      = c10QueryMsg.Header.AnswerCount ∧
    (forwardFailResponse c10QueryMsg).Questions = c10QueryMsg.Questions ∧
    (forwardFailResponse c10QueryMsg).Answers = c10QueryMsg.Answers ∧
    (forwardFailResponse c10QueryMsg).Header.ID = c10QueryMsg.Header.ID ∧
    (forwardFailResponse c10QueryMsg).Header.QuestionsCount
      = c10QueryMsg.Header.QuestionsCount ∧
    (forwardFailResponse c10QueryMsg).Header.AuthorityCount
      = c10QueryMsg.Header.AuthorityCount ∧
    (forwardFailResponse c10QueryMsg).Header.Flags / 16
      = c10QueryMsg.Header.Flags / 16 ∧
    (forwardFailResponse c10QueryMsg).Header.Flags % 16 = RCODE_SERVER_FAILURE ∧
    (forwardFailResponse c10QueryMsg).Header.AdditionalCount = 0 :=
  C10_fallback_frame c10QueryBytes c10QueryMsg (by decide) (by decide)

/-- Parsing the length-prefixed labels written by the encoder: starting at
the end of an arbitrary prefix, the label loop returns exactly the encoded
labels and stops just past the zero terminator. -/
theorem parseLabels_append (ls : List (List Nat)) :
    ∀ (pre tail : List Nat) (fuel : Nat),
      (∀ l ∈ ls, l ≠ [] ∧ l.length ≤ 255) → ls.length < fuel →
      parseLabels fuel (pre ++ (ls.flatMap encLabel ++ 0 :: tail)) pre.length
        = .ok (ls, pre.length + (ls.flatMap encLabel).length + 1) := by
  induction ls with
  | nil =>
    intro pre tail fuel hv hf
    obtain ⟨f, rfl⟩ : ∃ f, fuel = f + 1 := ⟨fuel - 1, by omega⟩
    have hlt : pre.length < (pre ++ (List.flatMap [] encLabel ++ 0 :: tail)).length := by
      simp
    have hget : (pre ++ (List.flatMap [] encLabel ++ 0 :: tail)).getD pre.length 0 = 0 := by
      simp only [List.flatMap_nil, List.nil_append]
      rw [List.getD_append_right pre (0 :: tail) 0 pre.length (Nat.le_refl _)]
      simp
    simp only [parseLabels, List.flatMap_nil, List.nil_append] at hget hlt ⊢
    rw [if_pos hlt]
    simp only [hget]
    simp
  | cons l ls ih =>
    intro pre tail fuel hv hf
    obtain ⟨f, rfl⟩ : ∃ f, fuel = f + 1 := ⟨fuel - 1, by omega⟩
    obtain ⟨hlne, hllen⟩ := hv l (by simp)
    have hlv : ∀ x ∈ ls, x ≠ [] ∧ x.length ≤ 255 := fun x hx => hv x (by simp [hx])
    have hl0 : 0 < l.length := List.length_pos.mpr hlne
    have hlmod : l.length % 256 = l.length := Nat.mod_eq_of_lt (by omega)
    rw [List.flatMap_cons,
      show (encLabel l ++ ls.flatMap encLabel) ++ 0 :: tail
          = encLabel l ++ (ls.flatMap encLabel ++ 0 :: tail) from List.append_assoc _ _ _,
      show pre ++ (encLabel l ++ (ls.flatMap encLabel ++ 0 :: tail))
          = (pre ++ encLabel l) ++ (ls.flatMap encLabel ++ 0 :: tail)
        from (List.append_assoc _ _ _).symm]
    have hlt : pre.length
        < ((pre ++ encLabel l) ++ (ls.flatMap encLabel ++ 0 :: tail)).length := by
      simp only [List.length_append, List.length_cons, encLabel]
      omega
    have hget : ((pre ++ encLabel l) ++ (ls.flatMap encLabel ++ 0 :: tail)).getD pre.length 0
        = l.length := by
      rw [List.append_assoc,
        List.getD_append_right pre (encLabel l ++ (ls.flatMap encLabel ++ 0 :: tail)) 0
          pre.length (Nat.le_refl _)]
      simp [encLabel, hlmod]
    have hne : ¬ (l.length = 0) := by omega
    have hbound : pre.length + 1 + l.length
        ≤ ((pre ++ encLabel l) ++ (ls.flatMap encLabel ++ 0 :: tail)).length := by
      simp only [List.length_append, List.length_cons, encLabel]
      omega
    have htake : (((pre ++ encLabel l) ++ (ls.flatMap encLabel ++ 0 :: tail)).drop
          (pre.length + 1)).take l.length = l := by
      rw [show (pre ++ encLabel l) ++ (ls.flatMap encLabel ++ 0 :: tail)
            = (pre ++ [l.length % 256]) ++ (l ++ (ls.flatMap encLabel ++ 0 :: tail)) by
          simp [encLabel, List.append_assoc],
        List.drop_left' (by simp), List.take_left' rfl]
    have hoff : pre.length + 1 + l.length = (pre ++ encLabel l).length := by
      simp only [List.length_append, List.length_cons, encLabel]
      omega
    simp only [parseLabels]
    rw [if_pos hlt]
    simp only [hget]
    rw [if_neg hne, if_pos hbound, hoff]
    have hIH := ih (pre ++ encLabel l) tail f hlv (by simpa using Nat.lt_of_succ_lt_succ hf)
    simp only [hIH, htake]
    simp [encLabel]
    omega

/-- splitOn never returns the empty list of pieces. -/
theorem splitOn_ne_nil_46 (name : List Nat) : name.splitOn 46 ≠ [] := by
  unfold List.splitOn
  exact List.splitOnP_ne_nil _ _

/-- The label encoding is at least one byte per label. -/
theorem length_le_flatMap_encLabel :
    ∀ ls : List (List Nat), ls.length ≤ (ls.flatMap encLabel).length
  | [] => by simp
  | l :: ls => by
    have hrec := length_le_flatMap_encLabel ls
    simp only [List.flatMap_cons, List.length_cons, List.length_append, encLabel]
    omega

/-- be16 on an append, reading entirely inside the right part. -/
theorem be16_append_right (l1 l2 : List Nat) (i : Nat) (h : l1.length ≤ i) :
    be16 (l1 ++ l2) i = be16 l2 (i - l1.length) := by
  simp only [be16]
  rw [List.getD_append_right l1 l2 0 i h, List.getD_append_right l1 l2 0 (i + 1) (by omega)]
  congr 2
  omega

/-- Question decode inverts Question encode on any buffer that starts with
the encoded question, returning the encoded length as consumed count. -/
theorem question_roundtrip (q : Question) (tail : List Nat) (hwf : q.wf) :
    NewQuestionFromBytes (q.MarshalBinary ++ tail) = .ok (q, q.MarshalBinary.length) := by
  obtain ⟨⟨hlab, hascii⟩, hT, hC⟩ := hwf
  have hdata : q.MarshalBinary ++ tail
      = (q.Name.splitOn 46).flatMap encLabel
          ++ 0 :: ([u16hi q.«Type», u16lo q.«Type», u16hi q.«Class», u16lo q.«Class»] ++ tail) := by
    simp [Question.MarshalBinary, nameToLabels, List.append_assoc]
  have hdata2 : q.MarshalBinary ++ tail
      = ((q.Name.splitOn 46).flatMap encLabel ++ [0])
          ++ ([u16hi q.«Type», u16lo q.«Type», u16hi q.«Class», u16lo q.«Class»] ++ tail) := by
    simp [Question.MarshalBinary, nameToLabels, List.append_assoc]
  have hmlen : q.MarshalBinary.length
      = ((q.Name.splitOn 46).flatMap encLabel).length + 5 := by
    simp only [Question.MarshalBinary, nameToLabels, List.length_append, List.length_cons,
      List.length_nil]
  obtain ⟨l0, ls0, hls⟩ : ∃ a as, q.Name.splitOn 46 = a :: as := by
    cases hsp : q.Name.splitOn 46 with
    | nil => exact absurd hsp (splitOn_ne_nil_46 q.Name)
    | cons a as => exact ⟨a, as, rfl⟩
  obtain ⟨hl0ne, hl0len⟩ := hlab l0 (by rw [hls]; simp)
  have hl0pos : 0 < l0.length := List.length_pos.mpr hl0ne
  have hne0 : ¬ ((q.MarshalBinary ++ tail).length = 0) := by
    rw [hdata]
    simp
  have hheadne : ¬ ((q.MarshalBinary ++ tail).headD 0 = 0) := by
    rw [headD_eq_getD_zero, hdata, hls]
    simp only [List.flatMap_cons, List.append_assoc, encLabel]
    simp only [List.cons_append, List.getD_cons_zero]
    have : l0.length % 256 = l0.length := Nat.mod_eq_of_lt (by omega)
    omega
  have hfuel : (q.Name.splitOn 46).length < (q.MarshalBinary ++ tail).length + 1 := by
    have h1 := length_le_flatMap_encLabel (q.Name.splitOn 46)
    have h2 : ((q.Name.splitOn 46).flatMap encLabel).length
        ≤ (q.MarshalBinary ++ tail).length := by
      rw [hdata]
      simp
    omega
  have hplabels := parseLabels_append (q.Name.splitOn 46) []
    ([u16hi q.«Type», u16lo q.«Type», u16hi q.«Class», u16lo q.«Class»] ++ tail)
    ((q.MarshalBinary ++ tail).length + 1) hlab hfuel
  simp only [List.nil_append, List.length_nil, Nat.zero_add] at hplabels
  rw [← hdata] at hplabels
  have hb4 : ((q.Name.splitOn 46).flatMap encLabel).length + 1 + 4
      ≤ (q.MarshalBinary ++ tail).length := by
    rw [hdata]
    simp
    omega
  have hbeT : be16 (q.MarshalBinary ++ tail)
      (((q.Name.splitOn 46).flatMap encLabel).length + 1) = q.«Type» := by
    rw [hdata2, be16_append_right _ _ _ (by simp)]
    have hidx : ((q.Name.splitOn 46).flatMap encLabel).length + 1
        - ((q.Name.splitOn 46).flatMap encLabel ++ [0]).length = 0 := by
      simp
    rw [hidx]
    show u16hi q.«Type» * 256 + u16lo q.«Type» = q.«Type»
    exact u16_recompose _ hT
  have hbeC : be16 (q.MarshalBinary ++ tail)
      (((q.Name.splitOn 46).flatMap encLabel).length + 1 + 2) = q.«Class» := by
    rw [hdata2, be16_append_right _ _ _ (by simp)]
    have hidx : ((q.Name.splitOn 46).flatMap encLabel).length + 1 + 2
        - ((q.Name.splitOn 46).flatMap encLabel ++ [0]).length = 2 := by
      simp
    rw [hidx]
    show u16hi q.«Class» * 256 + u16lo q.«Class» = q.«Class»
    exact u16_recompose _ hC
  unfold NewQuestionFromBytes
  rw [if_neg hne0, if_neg hheadne]
  simp only [hplabels]
  rw [if_pos hb4]
  rw [hbeT, hbeC]
  have hname : List.intercalate [46] (q.Name.splitOn 46) = q.Name :=
    List.intercalate_splitOn q.Name 46
  rw [hname]
  have : ((q.Name.splitOn 46).flatMap encLabel).length + 1 + 4 = q.MarshalBinary.length := by
    omega
  rw [this]

/-- The question loop of message decode inverts the question encoding: with
any 12-byte prefix (the header bytes) before the concatenated encoded
questions, parsing back their number of questions returns exactly them. -/
theorem parseQuestions_roundtrip (qs : List Question) :
    ∀ (pre : List Nat), pre.length = 12 → (∀ q ∈ qs, q.wf) →
      ∃ fin, parseQuestions (pre ++ qs.flatMap Question.MarshalBinary) qs.length
        = .ok (qs, fin) := by
  induction qs with
  | nil =>
    intro pre hpre hwf
    exact ⟨pre ++ [].flatMap Question.MarshalBinary, by simp [parseQuestions]⟩
  | cons q qs ih =>
    intro pre hpre hwf
    have hq := hwf q (by simp)
    have hqs : ∀ x ∈ qs, x.wf := fun x hx => hwf x (by simp [hx])
    have h12 : 12 ≤ (pre ++ (q :: qs).flatMap Question.MarshalBinary).length := by
      simp [hpre]
    have hdrop12 : (pre ++ (q :: qs).flatMap Question.MarshalBinary).drop 12
        = q.MarshalBinary ++ qs.flatMap Question.MarshalBinary := by
      rw [List.flatMap_cons]
      exact List.drop_left' hpre
    have hquest := question_roundtrip q (qs.flatMap Question.MarshalBinary) hq
    have hn : q.MarshalBinary.length
        ≤ (pre ++ (q :: qs).flatMap Question.MarshalBinary).length := by
      simp only [List.length_append, List.flatMap_cons, hpre]
      omega
    have hdropn : (pre ++ (q :: qs).flatMap Question.MarshalBinary).drop q.MarshalBinary.length
        = ((pre ++ q.MarshalBinary).drop q.MarshalBinary.length)
            ++ qs.flatMap Question.MarshalBinary := by
      rw [List.flatMap_cons, ← List.append_assoc]
      exact List.drop_append_of_le_length (by simp [hpre])
    have hpre2 : ((pre ++ q.MarshalBinary).drop q.MarshalBinary.length).length = 12 := by
      simp [hpre]
    obtain ⟨fin, hfin⟩ := ih ((pre ++ q.MarshalBinary).drop q.MarshalBinary.length) hpre2 hqs
    refine ⟨fin, ?_⟩
    simp only [List.length_cons, parseQuestions]
    rw [if_pos h12]
    simp only [hdrop12, hquest]
    rw [if_pos hn, hdropn]
    simp only [hfin]

/-- C3: a questions-only Message with a consistent question count,
uint16-ranged fields and well-formed ASCII dot-separated names (no empty
labels) round-trips: encode then decode returns the identical message, in
particular the original question list, and (with C9) the header question
count re-derived on decode equals the original count. -/
theorem C3_message_roundtrip (m : Message) (hA : m.Answers = [])
    (hQ : m.Header.QuestionsCount = m.Questions.length)
    (hwf : m.Header.wf) (hq : ∀ q ∈ m.Questions, q.wf) :
    NewMessageFromBytes m.MarshalBinary = .ok m := by
  obtain ⟨hd, qs, ans⟩ := m
  dsimp only at hA hQ hwf hq ⊢
  subst hA
  have hmar : Message.MarshalBinary ⟨hd, qs, []⟩
      = hd.MarshalBinary ++ qs.flatMap Question.MarshalBinary := by
    simp [Message.MarshalBinary]
  have hh : NewHeaderFromBytes (hd.MarshalBinary ++ qs.flatMap Question.MarshalBinary)
      = .ok hd := header_roundtrip hd hwf _
  obtain ⟨fin, hfin⟩ :=
    parseQuestions_roundtrip qs hd.MarshalBinary (by simp [Header.MarshalBinary]) hq
  unfold NewMessageFromBytes
  simp only [hh, hQ, hmar, hfin]
  have hqlt : qs.length < 65536 := by
    rw [← hQ]
    exact hwf.2.2.1
  rw [Nat.mod_eq_of_lt hqlt, ← hQ]

/-- C3 witness at c3Msg. -/
theorem C3_witness : NewMessageFromBytes c3Msg.MarshalBinary = .ok c3Msg :=
  C3_message_roundtrip c3Msg rfl rfl (by decide) (by decide)

/-- Sanity of the fuel parameter: the label loop result is the same for
every fuel bound exceeding the remaining buffer length, so the fuel passed
by NewQuestionFromBytes (buffer length plus one) behaves like the
unbounded Go loop. -/
theorem parseLabels_fuel_agree :
    ∀ (f g : Nat) (data : List Nat) (offset : Nat),
      data.length - offset < f → data.length - offset < g →
      parseLabels f data offset = parseLabels g data offset := by
  intro f
  induction f with
  | zero =>
    intro g data offset hf hg
    omega
  | succ f ih =>
    intro g data offset hf hg
    obtain ⟨g2, rfl⟩ : ∃ g2, g = g2 + 1 := ⟨g - 1, by omega⟩
    simp only [parseLabels]
    by_cases hlt : offset < data.length
    · rw [if_pos hlt, if_pos hlt]
      by_cases hz : data.getD offset 0 = 0
      · rw [if_pos hz, if_pos hz]
      · rw [if_neg hz, if_neg hz]
        by_cases hb : offset + 1 + data.getD offset 0 ≤ data.length
        · rw [if_pos hb, if_pos hb]
          have hrec := ih g2 data (offset + 1 + data.getD offset 0) (by omega) (by omega)
          rw [hrec]
        · rw [if_neg hb, if_neg hb]
    · rw [if_neg hlt, if_neg hlt]

end DnsServer
